import Mathlib

/-!
# CryptoNotifications: the CoinMarketCap client (`bot/coinmarketcap.go`)

A shallow embedding of `makeRequest`, `parseQuoteResponse` and
`GetCryptocurrencyQuotes`, followed by the properties proved about them.

Conventions of the embedding.

* A Go function returning `(value, error)` returns a pair here: the value and
  `Option String`, where `none` is the `nil` error and `some msg` is an error
  whose `Error()` text is `msg` (every error of the file is made by
  `fmt.Errorf`). Pairs, not a sum type, so that "what is returned next to an
  error" is something the definitions decide and the theorems have to prove.
* A slice is a `List`; the `nil` slice is `[]` (the code only observes `len`).
  `[]byte` and `string` are both `String`: the code only converts one into the
  other and concatenates.
* A Go `map` is the list of its entries in the order `range` visits them. Every
  theorem holds for every such order.
* `int` is `Int` (identifiers and status codes are only compared).
  `float64` values are only copied, and are carried as their bit pattern.
* `log.Printf` calls write to the log and do not influence any returned value;
  they are left out.
* What the Go standard library and the network decide (JSON decoding, the
  Unicode case tables, `time.Time.Format`, whether `http.NewRequest` fails, the
  round trip of `httpClient.Do`) is a parameter. How `url.Parse` cuts the query
  and the fragment off a URL text, and how `http.Header.Set` spells a key, is
  modelled, since it decides what the request carries.
-/

namespace CryptoNotifications

/-! ## Data model -/

/-- A Go `float64`, carried as its IEEE-754 bit pattern; the code only copies such values. -/
structure float64 where
  bits : Nat
deriving DecidableEq, Repr, Inhabited

/-- A `time.Time` as the wall-clock reading and zone offset that a layout prints. -/
structure Time where
  year : Nat := 1
  month : Nat := 1
  day : Nat := 1
  hour : Nat := 0
  minute : Nat := 0
  second : Nat := 0
  offsetMinutes : Int := 0
deriving DecidableEq, Repr, Inhabited

/-- A value of type `interface{}` as `encoding/json` decodes it. -/
inductive AnyJSON where
  | null
  | bool (b : Bool)
  | number (f : float64)
  | string (s : String)
  | array (xs : List AnyJSON)
  | object (kv : List (String × AnyJSON))
deriving Inhabited

/-- The record `Cryptocurrency` returned to the caller. -/
structure Cryptocurrency where
  ID : Int
  Name : String
  Symbol : String
  Price : float64
  PercentChange24h : float64
  MarketCap : float64
  Volume24h : float64
  LastUpdated : String
deriving DecidableEq, Repr

/-- The struct `apiTag`. -/
structure apiTag where
  Slug : String := ""
  Name : String := ""
  Category : String := ""
deriving DecidableEq, Repr

/-- The struct `apiStatus`. -/
structure apiStatus where
  Timestamp : Time := {}
  ErrorCode : Int := 0
  ErrorMessage : AnyJSON := AnyJSON.null
  Elapsed : Int := 0
  CreditCount : Int := 0
  Notice : AnyJSON := AnyJSON.null

/-- The struct `apiQuoteData`. -/
structure apiQuoteData where
  Price : float64 := ⟨0⟩
  Volume24h : float64 := ⟨0⟩
  VolumeChange24h : float64 := ⟨0⟩
  PercentChange1h : float64 := ⟨0⟩
  PercentChange24h : float64 := ⟨0⟩
  PercentChange7d : float64 := ⟨0⟩
  PercentChange30d : float64 := ⟨0⟩
  PercentChange60d : float64 := ⟨0⟩
  PercentChange90d : float64 := ⟨0⟩
  MarketCap : float64 := ⟨0⟩
  MarketCapDominance : float64 := ⟨0⟩
  FullyDilutedMarketCap : float64 := ⟨0⟩
  Tvl : AnyJSON := AnyJSON.null
  LastUpdated : Time := {}

/-- The struct `apiCryptocurrencyData`; `Quote` is the map from currency code to quote. -/
structure apiCryptocurrencyData where
  ID : Int := 0
  Name : String := ""
  Symbol : String := ""
  Slug : String := ""
  NumMarketPairs : Int := 0
  DateAdded : Time := {}
  Tags : List apiTag := []
  MaxSupply : Option float64 := none
  CirculatingSupply : float64 := ⟨0⟩
  TotalSupply : float64 := ⟨0⟩
  IsActive : Int := 0
  InfiniteSupply : Bool := false
  MintedMarketCap : float64 := ⟨0⟩
  Platform : AnyJSON := AnyJSON.null
  CmcRank : Int := 0
  IsFiat : Int := 0
  SelfReportedCirculatingSupply : AnyJSON := AnyJSON.null
  SelfReportedMarketCap : AnyJSON := AnyJSON.null
  TvlRatio : AnyJSON := AnyJSON.null
  LastUpdated : Time := {}
  Quote : List (String × apiQuoteData) := []

/-- The struct `apiQuoteResponse`; `Data` is the map from symbol to its listings. -/
structure apiQuoteResponse where
  Status : apiStatus := {}
  Data : List (String × List apiCryptocurrencyData) := []

/-- A `*url.URL` as `url.Parse` fills it from the text of a URL. The query and the
fragment are cut off as `url.Parse` cuts them; scheme, authority and path, which
`url.Parse` goes on to read from the text before the query, are kept as that text. -/
structure URL where
  beforeQuery : String
  ForceQuery : Bool
  RawQuery : String
  fragmentText : String
deriving DecidableEq, Repr

/-- An `*http.Request` as far as the client builds it; `Header` is the header map. -/
structure Request where
  Method : String
  URL : URL
  Header : List (String × String)
deriving DecidableEq, Repr

/-- What `io.ReadAll(resp.Body)` returns: the bytes read and the read error, if any. -/
structure Body where
  data : String
  err : Option String := none

/-- An `*http.Response` as far as the client reads it. -/
structure Response where
  StatusCode : Int
  Body : Body

/-- The struct `CoinMarketCapClient`; `httpClient` is what `httpClient.Do` answers
(the response, or the transport error, timeout included). -/
structure CoinMarketCapClient where
  apiKey : String
  httpClient : Request → Except String Response
  baseURL : String

/-- The parts of the Go standard library the client calls and the file does not define. -/
structure Stdlib where
  /-- The function `unicode.ToUpper` on runes above ASCII (the Unicode case tables). -/
  unicodeToUpper : Char → Char
  /-- The method `Time.Format` with layout `time.RFC3339`. -/
  formatRFC3339 : Time → String
  /-- The function `json.Unmarshal` into an `apiQuoteResponse`: the decoded value or the error text. -/
  jsonUnmarshal : String → Except String apiQuoteResponse
  /-- The function `http.NewRequest` with a nil body: the error text when it fails (the
  checks of `url.Parse` on control characters, scheme, authority, path and escapes). -/
  newRequestErr : String → String → Option String

/-- The constant `baseURL`. -/
def baseURL : String := "https://pro-api.coinmarketcap.com/v2"

/-- The constant `http.StatusOK`. -/
def StatusOK : Int := 200

/-- The constructor `NewCoinMarketCapClient`; `transport` is what the `http.Client` with
the 10 second timeout answers. -/
def NewCoinMarketCapClient (transport : Request → Except String Response) (apiKey : String) :
    CoinMarketCapClient :=
  { apiKey := apiKey, httpClient := transport, baseURL := baseURL }

/-! ## `strings` helpers used by `GetCryptocurrencyQuotes` -/

/-- The function `strings.Split` on lists of runes, for a one-rune separator. -/
def splitRunes (sep : Char) : List Char → List (List Char)
  | [] => [[]]
  | c :: cs =>
    if c = sep then [] :: splitRunes sep cs
    else
      match splitRunes sep cs with
      | [] => [[c]]
      | p :: ps => (c :: p) :: ps

/-- The function `strings.Split(s, sep)` for a one-rune separator. -/
def Split (s : String) (sep : Char) : List String :=
  (splitRunes sep s.data).map String.mk

/-- The function `unicode.IsSpace`. -/
def isSpace (c : Char) : Bool :=
  let n := c.toNat
  n = 0x09 || n = 0x0A || n = 0x0B || n = 0x0C || n = 0x0D || n = 0x20 ||
  n = 0x85 || n = 0xA0 || n = 0x1680 || (0x2000 ≤ n && n ≤ 0x200A) ||
  n = 0x2028 || n = 0x2029 || n = 0x202F || n = 0x205F || n = 0x3000

/-- The function `strings.TrimSpace`: leading and trailing white space removed. -/
def TrimSpace (s : String) : String :=
  String.mk ((s.data.dropWhile isSpace).reverse.dropWhile isSpace).reverse

/-- The function `unicode.ToUpper`: ASCII handled inline, the rest by the case tables. -/
def toUpperRune (lib : Stdlib) (c : Char) : Char :=
  if c.toNat ≤ 0x7F then
    (if 'a'.toNat ≤ c.toNat ∧ c.toNat ≤ 'z'.toNat then Char.ofNat (c.toNat - ('a'.toNat - 'A'.toNat)) else c)
  else lib.unicodeToUpper c

/-- The function `strings.ToUpper`. -/
def ToUpper (lib : Stdlib) (s : String) : String :=
  String.mk (s.data.map (toUpperRune lib))

/-- The function `strings.Join`. -/
def Join : List String → String → String
  | [], _ => ""
  | [a], _ => a
  | a :: b :: rest, sep => a ++ sep ++ Join (b :: rest) sep

/-! ## `net/url` and `net/http` helpers used by `makeRequest` -/

/-- The function `strings.Cut` for a one-rune separator: the text before the first
separator and the text after it (the whole text and nothing when there is none). -/
def Cut (s : String) (sep : Char) : String × String :=
  (String.mk (s.data.takeWhile (fun ch => ch != sep)),
   String.mk ((s.data.dropWhile (fun ch => ch != sep)).drop 1))

/-- The URL `url.Parse` returns for `rawURL` when it succeeds: the fragment is cut at the
first `#`; of what stands before it, a lone final `?` sets `ForceQuery`, and otherwise the
query is cut at the first `?`. -/
def parsedURL (rawURL : String) : URL :=
  let u := (Cut rawURL '#').1
  let frag := (Cut rawURL '#').2
  if u.data.getLast? = some '?' ∧ u.data.count '?' = 1 then
    { beforeQuery := String.mk u.data.dropLast, ForceQuery := true, RawQuery := "",
      fragmentText := frag }
  else
    { beforeQuery := (Cut u '?').1, ForceQuery := false, RawQuery := (Cut u '?').2,
      fragmentText := frag }

/-- The query part of `URL.RequestURI`, the request target that the transport writes; the
fragment is no part of the request target. -/
def URL.requestQuery (u : URL) : String :=
  if u.ForceQuery || u.RawQuery != "" then "?" ++ u.RawQuery else ""

/-- The token characters of a header field name (`validHeaderFieldByte`). -/
def validHeaderFieldByte (c : Char) : Bool :=
  let n := c.toNat
  n = 33 || (35 ≤ n && n ≤ 39) || n = 42 || n = 43 || n = 45 || n = 46 ||
  (48 ≤ n && n ≤ 57) || (65 ≤ n && n ≤ 90) || (94 ≤ n && n ≤ 122) || n = 124 || n = 126

/-- The loop of `canonicalMIMEHeaderKey`: upper case at the start and after a hyphen,
lower case elsewhere. -/
def canonicalRunes (upper : Bool) : List Char → List Char
  | [] => []
  | c :: cs =>
    let c1 :=
      if upper ∧ 97 ≤ c.toNat ∧ c.toNat ≤ 122 then Char.ofNat (c.toNat - 32)
      else if ¬ upper ∧ 65 ≤ c.toNat ∧ c.toNat ≤ 90 then Char.ofNat (c.toNat + 32)
      else c
    c1 :: canonicalRunes (c1 = '-') cs

/-- The function `textproto.CanonicalMIMEHeaderKey`: a key with a character that is no
token character is returned unchanged. -/
def CanonicalMIMEHeaderKey (s : String) : String :=
  if s.data.all validHeaderFieldByte then String.mk (canonicalRunes true s.data) else s

/-! ## `makeRequest` -/

/-- The method `http.Header.Set`: the value is stored under the canonical form of the key. -/
def Request.headerSet (req : Request) (key value : String) : Request :=
  { req with
    Header := (CanonicalMIMEHeaderKey key, value)
      :: req.Header.filter (fun kv => kv.1 != CanonicalMIMEHeaderKey key) }

/-- The request `makeRequest` hands to `httpClient.Do`: what `http.NewRequest` builds for
a GET of `url`, with the two headers set. -/
def signedRequest (c : CoinMarketCapClient) (url : String) : Request :=
  let req : Request := { Method := "GET", URL := parsedURL url, Header := [] }
  let req := req.headerSet "X-CMC_PRO_API_KEY" c.apiKey
  req.headerSet "Accept" "application/json"

/-- The method `makeRequest`: the body read, and the error. -/
def makeRequest (lib : Stdlib) (c : CoinMarketCapClient) (url : String) : String × Option String :=
  match lib.newRequestErr "GET" url with
  | some err => ("", some ("ошибка создания запроса: " ++ err))
  | none =>
    match c.httpClient (signedRequest c url) with
    | Except.error err => ("", some ("ошибка выполнения запроса: " ++ err))
    | Except.ok resp =>
      if resp.StatusCode ≠ StatusOK then
        let body := resp.Body.data
        if resp.StatusCode ≥ 400 ∧ resp.StatusCode < 500 then
          ("", some "некорректный запрос или не найден символ")
        else if resp.StatusCode ≥ 500 ∧ resp.StatusCode < 600 then
          ("", some "временная ошибка сервера, попробуйте позже")
        else
          ("", some ("API вернул статус " ++ toString resp.StatusCode ++ ": " ++ body))
      else
        match resp.Body.err with
        | some err => ("", some ("ошибка чтения ответа: " ++ err))
        | none => (resp.Body.data, none)

/-! ## `parseQuoteResponse` -/

/-- The inner loop of `parseQuoteResponse`: starting from `cryptoArray[0]`, keep the
item whose `ID` is strictly smaller than the one held. `none` for an empty array,
which the loop over `Data` skips before selecting. -/
def minIDCrypto (cryptoArray : List apiCryptocurrencyData) : Option apiCryptocurrencyData :=
  match cryptoArray with
  | [] => none
  | first :: _ =>
    some (cryptoArray.foldl (fun minIDCrypto item => if item.ID < minIDCrypto.ID then item else minIDCrypto) first)

/-- One iteration of the loop over `apiResp.Data`: `cryptos` after the entry is handled. -/
def quoteLoopBody (lib : Stdlib) (cryptos : List Cryptocurrency)
    (entry : String × List apiCryptocurrencyData) : List Cryptocurrency :=
  match minIDCrypto entry.2 with
  | none => cryptos
  | some minIDCrypto =>
    match minIDCrypto.Quote.lookup "USD" with
    | none => cryptos
    | some usdQuote =>
      cryptos ++ [{ ID := minIDCrypto.ID,
                    Name := minIDCrypto.Name,
                    Symbol := minIDCrypto.Symbol,
                    Price := usdQuote.Price,
                    PercentChange24h := usdQuote.PercentChange24h,
                    MarketCap := usdQuote.MarketCap,
                    Volume24h := usdQuote.Volume24h,
                    LastUpdated := lib.formatRFC3339 usdQuote.LastUpdated }]

/-- The method `parseQuoteResponse` after `json.Unmarshal` has succeeded, on the decoded `apiResp`. -/
def parseDecoded (lib : Stdlib) (apiResp : apiQuoteResponse) : List Cryptocurrency × Option String :=
  if apiResp.Status.ErrorCode ≠ 0 then
    let errorMsg :=
      match apiResp.Status.ErrorMessage with
      | AnyJSON.string msg => msg
      | _ => "неизвестная ошибка"
    ([], some ("API ошибка: " ++ errorMsg))
  else
    let cryptos := apiResp.Data.foldl (quoteLoopBody lib) []
    if cryptos.length = 0 then ([], some "криптовалюты не найдены")
    else (cryptos, none)

/-- The method `parseQuoteResponse`. -/
def parseQuoteResponse (lib : Stdlib) (body : String) : List Cryptocurrency × Option String :=
  match lib.jsonUnmarshal body with
  | Except.error err => ([], some ("ошибка парсинга JSON: " ++ err))
  | Except.ok apiResp => parseDecoded lib apiResp

/-! ## `GetCryptocurrencyQuotes` -/

/-- The first loop of `GetCryptocurrencyQuotes`: the slice `cleanSymbols`. -/
def cleanSymbols (lib : Stdlib) (symbols : String) : List String :=
  (Split symbols ',').foldl
    (fun cleanSymbols s =>
      let cleaned := ToUpper lib (TrimSpace s)
      if cleaned ≠ "" then cleanSymbols ++ [cleaned] else cleanSymbols)
    []

/-- The URL `GetCryptocurrencyQuotes` builds from `symbolsParam`. -/
def quotesURL (c : CoinMarketCapClient) (symbolsParam : String) : String :=
  c.baseURL ++ "/cryptocurrency/quotes/latest?symbol=" ++ symbolsParam

/-- The tail of `GetCryptocurrencyQuotes` once `url` is built: `makeRequest`, then
`parseQuoteResponse` on the body, each error returned with a nil slice. -/
def requestAndParse (lib : Stdlib) (c : CoinMarketCapClient) (url : String) :
    List Cryptocurrency × Option String :=
  match makeRequest lib c url with
  | (_, some err) => ([], some err)
  | (body, none) =>
    match parseQuoteResponse lib body with
    | (_, some err) => ([], some err)
    | (cryptos, none) => (cryptos, none)

/-- The method `GetCryptocurrencyQuotes`. -/
def GetCryptocurrencyQuotes (lib : Stdlib) (c : CoinMarketCapClient) (symbols : String) :
    List Cryptocurrency × Option String :=
  let cleanSymbols := cleanSymbols lib symbols
  if cleanSymbols.length = 0 then ([], some "не указаны символы криптовалют")
  else
    let symbolsParam := Join cleanSymbols ","
    let url := quotesURL c symbolsParam
    requestAndParse lib c url

/-! ## Specification-side definitions -/

/-- The record the specification builds from a listing and its USD quote. -/
def quoteRecord (lib : Stdlib) (listing : apiCryptocurrencyData) (usd : apiQuoteData) : Cryptocurrency :=
  { ID := listing.ID, Name := listing.Name, Symbol := listing.Symbol,
    Price := usd.Price, PercentChange24h := usd.PercentChange24h,
    MarketCap := usd.MarketCap, Volume24h := usd.Volume24h,
    LastUpdated := lib.formatRFC3339 usd.LastUpdated }

/-- A group qualifies when it is non-empty and its selected listing has a "USD" quote. -/
def qualifies (group : List apiCryptocurrencyData) : Bool :=
  match group with
  | [] => false
  | _ :: _ =>
    match minIDCrypto group with
    | none => false
    | some listing => (listing.Quote.lookup "USD").isSome

/-- The record of a group, when it qualifies. -/
def groupRecord (lib : Stdlib) (group : List apiCryptocurrencyData) : Option Cryptocurrency :=
  match minIDCrypto group with
  | none => none
  | some listing =>
    match listing.Quote.lookup "USD" with
    | none => none
    | some usd => some (quoteRecord lib listing usd)

/-- The symbol list as the specification words it: split on commas, trim each part,
discard the parts that are empty after trimming, upper-case the rest. -/
def sanitizedSymbols (lib : Stdlib) (symbols : String) : List String :=
  (((Split symbols ',').map TrimSpace).filter (fun part => part ≠ "")).map (ToUpper lib)

/-- The first rune of a string, used to tell error texts apart. -/
def firstRune (s : String) : Option Char := s.data.head?

/-! ## Concrete instances used to evaluate the definitions -/

/-- Two decimal digits of `n`. -/
def twoDigits (n : Nat) : List Char :=
  [Char.ofNat (48 + n / 10 % 10), Char.ofNat (48 + n % 10)]

/-- The layout `2006-01-02T15:04:05Z07:00` for years of four digits. -/
def rfc3339 (t : Time) : String :=
  String.mk (twoDigits (t.year / 100) ++ twoDigits t.year ++ ['-'] ++ twoDigits t.month ++ ['-'] ++
    twoDigits t.day ++ ['T'] ++ twoDigits t.hour ++ [':'] ++ twoDigits t.minute ++ [':'] ++
    twoDigits t.second ++
    (if t.offsetMinutes = 0 then ['Z']
     else (if t.offsetMinutes < 0 then ['-'] else ['+']) ++
       twoDigits (t.offsetMinutes.natAbs / 60) ++ [':'] ++ twoDigits (t.offsetMinutes.natAbs % 60)))

/-- A library instance: no case mapping above ASCII, every URL accepted, and a decoder
that knows the bodies listed in `bodies`. -/
def stdlibOf (bodies : List (String × apiQuoteResponse)) : Stdlib :=
  { unicodeToUpper := fun c => c,
    formatRFC3339 := rfc3339,
    jsonUnmarshal := fun body =>
      match bodies.lookup body with
      | some r => Except.ok r
      | none => Except.error "invalid character",
    newRequestErr := fun _ _ => none }

/-- A client whose transport answers every request with the given status and body. -/
def clientAnswering (status : Int) (body : String) : CoinMarketCapClient :=
  NewCoinMarketCapClient (fun _ => Except.ok { StatusCode := status, Body := { data := body } }) "key"

/-- A USD quote with the given price and update time, the other fields distinct from it. -/
def usdQuote (price : Nat) (updated : Time) : apiQuoteData :=
  { Price := ⟨price⟩, PercentChange24h := ⟨price + 1⟩, MarketCap := ⟨price + 2⟩,
    Volume24h := ⟨price + 3⟩, LastUpdated := updated }

/-- The listing of identifier 5 in the "BTC" group. -/
def listing5 : apiCryptocurrencyData :=
  { ID := 5, Name := "Bitcoin Clone", Symbol := "BTC",
    Quote := [("USD", usdQuote 50 { year := 2024, month := 5, day := 7, hour := 13 })] }

/-- The listing of identifier 3 in the "BTC" group. -/
def listing3 : apiCryptocurrencyData :=
  { ID := 3, Name := "Bitcoin", Symbol := "BTC",
    Quote := [("USD", usdQuote 30 { year := 2024, month := 5, day := 7, hour := 14, minute := 30 })] }

/-- A second listing of identifier 5, with another name and quote. -/
def listing5bis : apiCryptocurrencyData :=
  { ID := 5, Name := "Bitcoin Fork", Symbol := "BTC",
    Quote := [("USD", usdQuote 90 { year := 2022 })] }

/-- A second listing of identifier 3, with another name and quote. -/
def listing3bis : apiCryptocurrencyData :=
  { ID := 3, Name := "Bitcoin Copy", Symbol := "BTC",
    Quote := [("USD", usdQuote 70 { year := 2023 })] }

/-- A listing that has a quote in euros only. -/
def listingEUR : apiCryptocurrencyData :=
  { ID := 9, Name := "Ether", Symbol := "ETH", Quote := [("EUR", usdQuote 20 {})] }

/-- A client whose transport answers 200 with `body` to a request whose raw query is
`query`, and 500 to any other request. -/
def clientServing (query body : String) : CoinMarketCapClient :=
  NewCoinMarketCapClient
    (fun req =>
      if req.URL.RawQuery = query then Except.ok { StatusCode := 200, Body := { data := body } }
      else Except.ok { StatusCode := 500, Body := { data := "" } })
    "key"

/-- The response with one "BTC" group holding the listings of identifiers 5 and 3. -/
def btcResponse : apiQuoteResponse :=
  { Data := [("BTC", [listing5, listing3])] }

/-- A response with a qualifying group, an empty group and a USD-less group. -/
def mixedResponse : apiQuoteResponse :=
  { Data := [("DOGE", []), ("BTC", [listing5, listing3]), ("ETH", [listingEUR])] }

/-- A response whose groups are all empty or USD-less. -/
def barrenResponse : apiQuoteResponse :=
  { Data := [("DOGE", []), ("ETH", [listingEUR])] }

/-- A response with a non-zero error code, a string message and well-formed data. -/
def failedResponse : apiQuoteResponse :=
  { Status := { ErrorCode := 1001, ErrorMessage := AnyJSON.string "This API Key is invalid." },
    Data := [("BTC", [listing5, listing3])] }

/-- The response with one "BTC" group holding two different listings of identifier 3. -/
def tiedResponse : apiQuoteResponse :=
  { Data := [("BTC", [listing3, listing3bis])] }

/-- The response `tiedResponse` with the order of its group reversed. -/
def tiedReversedResponse : apiQuoteResponse :=
  { Data := [("BTC", [listing3bis, listing3])] }

/-- The record of the second listing of identifier 3. -/
def record3bis : Cryptocurrency :=
  { ID := 3, Name := "Bitcoin Copy", Symbol := "BTC", Price := ⟨70⟩, PercentChange24h := ⟨71⟩,
    MarketCap := ⟨72⟩, Volume24h := ⟨73⟩, LastUpdated := "2023-01-01T00:00:00Z" }

/-- The record of the listing of identifier 3. -/
def record3 : Cryptocurrency :=
  { ID := 3, Name := "Bitcoin", Symbol := "BTC", Price := ⟨30⟩, PercentChange24h := ⟨31⟩,
    MarketCap := ⟨32⟩, Volume24h := ⟨33⟩, LastUpdated := "2024-05-07T14:30:00Z" }

/-! ## Lemmas on the selection loop -/

/-- The step of the selection loop. -/
theorem minID_fold_split (rest pre mid : List apiCryptocurrencyData) (m : apiCryptocurrencyData)
    (hpre : ∀ x ∈ pre, m.ID < x.ID) (hmid : ∀ x ∈ mid, m.ID ≤ x.ID) :
    ∃ pre1 post1,
      pre ++ m :: (mid ++ rest) =
        pre1 ++ rest.foldl (fun held item => if item.ID < held.ID then item else held) m :: post1 ∧
      (∀ x ∈ pre1, (rest.foldl (fun held item => if item.ID < held.ID then item else held) m).ID < x.ID) ∧
      (∀ x ∈ post1, (rest.foldl (fun held item => if item.ID < held.ID then item else held) m).ID ≤ x.ID) := by
  induction rest generalizing pre mid m with
  | nil => exact ⟨pre, mid, by simp, hpre, hmid⟩
  | cons item rest ih =>
    simp only [List.foldl_cons]
    by_cases hlt : item.ID < m.ID
    · simp only [hlt, if_true]
      obtain ⟨pre1, post1, heq, h1, h2⟩ := ih (pre ++ m :: mid) [] item
        (by
          intro x hx
          rcases List.mem_append.mp hx with hx | hx
          · exact lt_trans hlt (hpre x hx)
          · rcases List.mem_cons.mp hx with hx | hx
            · subst hx; exact hlt
            · exact lt_of_lt_of_le hlt (hmid x hx))
        (by simp)
      refine ⟨pre1, post1, ?_, h1, h2⟩
      rw [← heq]; simp
    · simp only [hlt, if_false]
      obtain ⟨pre1, post1, heq, h1, h2⟩ := ih pre (mid ++ [item]) m hpre
        (by
          intro x hx
          rcases List.mem_append.mp hx with hx | hx
          · exact hmid x hx
          · simp only [List.mem_singleton] at hx
            subst hx; exact not_lt.mp hlt)
      refine ⟨pre1, post1, ?_, h1, h2⟩
      rw [← heq]; simp

/-- The selected listing splits the group: strictly larger identifiers before it, none smaller after it. -/
theorem minIDCrypto_split (group : List apiCryptocurrencyData) (hne : group ≠ []) :
    ∃ sel pre post, minIDCrypto group = some sel ∧ group = pre ++ sel :: post ∧
      (∀ x ∈ pre, sel.ID < x.ID) ∧ (∀ x ∈ post, sel.ID ≤ x.ID) := by
  cases group with
  | nil => exact absurd rfl hne
  | cons first rest =>
    obtain ⟨pre1, post1, heq, h1, h2⟩ := minID_fold_split rest [] [] first (by simp) (by simp)
    refine ⟨_, pre1, post1, ?_, ?_, h1, h2⟩
    · simp only [minIDCrypto, List.foldl_cons, lt_self_iff_false, if_false]
    · simpa using heq

/-- The selection is empty exactly on the empty group. -/
theorem minIDCrypto_eq_none (group : List apiCryptocurrencyData) :
    minIDCrypto group = none ↔ group = [] := by
  cases group <;> simp [minIDCrypto]

/-- The selected listing is a member of the group and has the least identifier. -/
theorem minIDCrypto_mem_le (group : List apiCryptocurrencyData) (sel : apiCryptocurrencyData)
    (h : minIDCrypto group = some sel) : sel ∈ group ∧ ∀ x ∈ group, sel.ID ≤ x.ID := by
  have hne : group ≠ [] := fun e => by simp [e, minIDCrypto] at h
  obtain ⟨sel1, pre, post, hs, hg, h1, h2⟩ := minIDCrypto_split group hne
  rw [h] at hs
  cases hs
  subst hg
  refine ⟨by simp, ?_⟩
  intro x hx
  rcases List.mem_append.mp hx with hx | hx
  · exact le_of_lt (h1 x hx)
  · rcases List.mem_cons.mp hx with hx | hx
    · subst hx; exact le_refl _
    · exact h2 x hx

/-- Reordering a group whose least identifier is carried by one listing keeps the selection. -/
theorem minIDCrypto_perm (g1 g2 : List apiCryptocurrencyData) (hperm : g2.Perm g1)
    (hid : ∀ a ∈ g1, ∀ b ∈ g1, (∀ x ∈ g1, a.ID ≤ x.ID) → (∀ x ∈ g1, b.ID ≤ x.ID) → a = b) :
    minIDCrypto g2 = minIDCrypto g1 := by
  cases h1 : minIDCrypto g1 with
  | none =>
    have : g1 = [] := (minIDCrypto_eq_none g1).mp h1
    subst this
    have : g2 = [] := List.Perm.eq_nil hperm
    subst this
    rfl
  | some s1 =>
    cases h2 : minIDCrypto g2 with
    | none =>
      have : g2 = [] := (minIDCrypto_eq_none g2).mp h2
      subst this
      have : g1 = [] := (List.Perm.nil_eq hperm).symm
      subst this
      simp [minIDCrypto] at h1
    | some s2 =>
      obtain ⟨m1, l1⟩ := minIDCrypto_mem_le g1 s1 h1
      obtain ⟨m2, l2⟩ := minIDCrypto_mem_le g2 s2 h2
      have m2g1 : s2 ∈ g1 := hperm.subset m2
      have m1g2 : s1 ∈ g2 := hperm.symm.subset m1
      have : s2 = s1 :=
        hid s2 m2g1 s1 m1 (fun x hx => l2 x (hperm.symm.subset hx)) l1
      rw [this]

/-! ## Lemmas on the loop over the groups -/

/-- One iteration appends the record of the group, when there is one. -/
theorem quoteLoopBody_eq (lib : Stdlib) (cryptos : List Cryptocurrency)
    (entry : String × List apiCryptocurrencyData) :
    quoteLoopBody lib cryptos entry = cryptos ++ (groupRecord lib entry.2).toList := by
  unfold quoteLoopBody groupRecord
  cases minIDCrypto entry.2 with
  | none => simp
  | some sel =>
    simp only
    split <;> simp [quoteRecord]

/-- The loop collects the records of the groups, in the order of iteration. -/
theorem quoteLoop_eq (lib : Stdlib) (data : List (String × List apiCryptocurrencyData))
    (cryptos : List Cryptocurrency) :
    data.foldl (quoteLoopBody lib) cryptos
      = cryptos ++ data.filterMap (fun entry => groupRecord lib entry.2) := by
  induction data generalizing cryptos with
  | nil => simp
  | cons entry data ih =>
    rw [List.foldl_cons, ih, quoteLoopBody_eq]
    cases h : groupRecord lib entry.2 <;> simp [List.filterMap_cons, h]

/-- A group has a record exactly when it qualifies. -/
theorem groupRecord_isSome (lib : Stdlib) (group : List apiCryptocurrencyData) :
    (groupRecord lib group).isSome = qualifies group := by
  unfold groupRecord qualifies
  cases group with
  | nil => simp [minIDCrypto]
  | cons first rest =>
    cases minIDCrypto (first :: rest) with
    | none => simp
    | some sel =>
      simp only
      split
      · next h => rw [h]; rfl
      · next h => rw [h]; rfl

/-- The number of records equals the number of qualifying groups. -/
theorem length_filterMap_groupRecord (lib : Stdlib)
    (data : List (String × List apiCryptocurrencyData)) :
    (data.filterMap (fun entry => groupRecord lib entry.2)).length
      = (data.filter (fun entry => qualifies entry.2)).length := by
  induction data with
  | nil => simp
  | cons entry data ih =>
    have h := groupRecord_isSome lib entry.2
    cases hr : groupRecord lib entry.2 with
    | none =>
      rw [hr] at h
      have hq : qualifies entry.2 = false := by simpa using h.symm
      simp [List.filterMap_cons, hr, List.filter_cons, hq, ih]
    | some r =>
      rw [hr] at h
      have hq : qualifies entry.2 = true := by simpa using h.symm
      simp [List.filterMap_cons, hr, List.filter_cons, hq, ih]

/-- With error code 0, the decoded response gives the collected records, or NotFound when there are none. -/
theorem parseDecoded_ok (lib : Stdlib) (apiResp : apiQuoteResponse)
    (hcode : apiResp.Status.ErrorCode = 0) :
    parseDecoded lib apiResp =
      if apiResp.Data.filterMap (fun entry => groupRecord lib entry.2) = []
      then ([], some "криптовалюты не найдены")
      else (apiResp.Data.filterMap (fun entry => groupRecord lib entry.2), none) := by
  unfold parseDecoded
  simp only [hcode, ne_eq, not_true_eq_false, if_false, quoteLoop_eq, List.nil_append,
    List.length_eq_zero]

/-- No record is produced exactly when no group qualifies. -/
theorem filterMap_groupRecord_eq_nil (lib : Stdlib)
    (data : List (String × List apiCryptocurrencyData)) :
    data.filterMap (fun entry => groupRecord lib entry.2) = []
      ↔ ∀ entry ∈ data, qualifies entry.2 = false := by
  rw [← List.length_eq_zero, length_filterMap_groupRecord, List.length_eq_zero,
    List.filter_eq_nil_iff]
  constructor
  · intro h entry he
    simpa using h entry he
  · intro h entry he
    simpa using h entry he

/-- Every result of `parseDecoded` is an error with no records, or records with no error. -/
theorem parseDecoded_dichotomy (lib : Stdlib) (apiResp : apiQuoteResponse) :
    ((parseDecoded lib apiResp).2.isSome ∧ (parseDecoded lib apiResp).1 = []) ∨
    ((parseDecoded lib apiResp).2 = none ∧ (parseDecoded lib apiResp).1 ≠ []) := by
  unfold parseDecoded
  by_cases hcode : apiResp.Status.ErrorCode = 0
  · by_cases hlen : (List.foldl (quoteLoopBody lib) [] apiResp.Data).length = 0
    · simp [hcode, hlen]
    · right
      simp only [hcode, ne_eq, not_true_eq_false, if_false, hlen]
      exact ⟨trivial, fun e => hlen (by simp [e])⟩
  · simp [hcode]

/-- Every result of `parseQuoteResponse` is an error with no records, or records with no error. -/
theorem parseQuoteResponse_dichotomy (lib : Stdlib) (body : String) :
    ((parseQuoteResponse lib body).2.isSome ∧ (parseQuoteResponse lib body).1 = []) ∨
    ((parseQuoteResponse lib body).2 = none ∧ (parseQuoteResponse lib body).1 ≠ []) := by
  unfold parseQuoteResponse
  cases lib.jsonUnmarshal body with
  | error err => simp
  | ok apiResp => exact parseDecoded_dichotomy lib apiResp

/-! ## The selection within a group -/

/-- C1: for every non-empty symbol group, the listing that `parseQuoteResponse` selects is
the first listing of the group, in the group's order, that carries the minimum identifier:
the group splits as `pre ++ sel :: post`, the identifier of `sel` is at most that of every
listing of the group, no listing of `pre` has the identifier of `sel`, and the iteration of
the loop for that group builds its record from `sel`. -/
theorem C1_selects_first_minimum (group : List apiCryptocurrencyData) (hne : group ≠ []) :
    ∃ sel pre post, minIDCrypto group = some sel ∧ group = pre ++ sel :: post ∧
      (∀ x ∈ group, sel.ID ≤ x.ID) ∧ (∀ x ∈ pre, x.ID ≠ sel.ID) ∧
      ∀ (lib : Stdlib) (cryptos : List Cryptocurrency) (symbol : String),
        quoteLoopBody lib cryptos (symbol, group)
          = cryptos ++ ((sel.Quote.lookup "USD").map (quoteRecord lib sel)).toList := by
  obtain ⟨sel, pre, post, hs, hg, h1, h2⟩ := minIDCrypto_split group hne
  refine ⟨sel, pre, post, hs, hg, (minIDCrypto_mem_le group sel hs).2, ?_, ?_⟩
  · intro x hx
    exact ne_of_gt (h1 x hx)
  · intro lib cryptos symbol
    rw [quoteLoopBody_eq]
    simp only [groupRecord, hs]
    split
    · next h => rw [h]; rfl
    · next h => rw [h]; rfl

/-- Witness of C1 on the group holding the listings of identifiers 5 and 3. -/
theorem C1_selects_first_minimum_witness :
    [listing5, listing3] ≠ [] ∧
    ∃ sel pre post, minIDCrypto [listing5, listing3] = some sel ∧
      [listing5, listing3] = pre ++ sel :: post ∧
      (∀ x ∈ [listing5, listing3], sel.ID ≤ x.ID) ∧ (∀ x ∈ pre, x.ID ≠ sel.ID) ∧
      ∀ (lib : Stdlib) (cryptos : List Cryptocurrency) (symbol : String),
        quoteLoopBody lib cryptos (symbol, [listing5, listing3])
          = cryptos ++ ((sel.Quote.lookup "USD").map (quoteRecord lib sel)).toList :=
  ⟨by simp, C1_selects_first_minimum [listing5, listing3] (by simp)⟩

/-- C2 as stated fails: the group of two listings that share identifier 3 and its
reversal, a permutation of it, select different listings and give different records. -/
theorem C2_order_dependence_on_ties :
    [listing3bis, listing3].Perm [listing3, listing3bis] ∧
    2 ≤ [listing3, listing3bis].length ∧
    (minIDCrypto [listing3bis, listing3]).map (fun l => l.Name) = some "Bitcoin Copy" ∧
    (minIDCrypto [listing3, listing3bis]).map (fun l => l.Name) = some "Bitcoin" ∧
    parseQuoteResponse
        (stdlibOf [("tied", tiedResponse), ("tied-reversed", tiedReversedResponse)]) "tied"
      = ([record3], none) ∧
    parseQuoteResponse
        (stdlibOf [("tied", tiedResponse), ("tied-reversed", tiedReversedResponse)])
        "tied-reversed"
      = ([record3bis], none) ∧
    record3 ≠ record3bis := by
  refine ⟨List.Perm.swap _ _ _, by decide, by decide, by decide, by decide, by decide,
    by decide⟩

/-- C2, amended: for every symbol group in which the listings that carry the group's
minimum identifier are one and the same listing (listings that share a larger identifier
may differ) and every permutation of the group's order, `parseQuoteResponse` selects the
same listing, its loop iteration produces the same records, and the whole result for a
response that holds the permuted group in place of the group is the same. -/
theorem C2_selection_independent_of_order (lib : Stdlib)
    (group permuted : List apiCryptocurrencyData) (hperm : permuted.Perm group)
    (hid : ∀ a ∈ group, ∀ b ∈ group,
      (∀ x ∈ group, a.ID ≤ x.ID) → (∀ x ∈ group, b.ID ≤ x.ID) → a = b) :
    minIDCrypto permuted = minIDCrypto group ∧
    (∀ (cryptos : List Cryptocurrency) (symbol : String),
      quoteLoopBody lib cryptos (symbol, permuted) = quoteLoopBody lib cryptos (symbol, group)) ∧
    ∀ (status : apiStatus) (before after : List (String × List apiCryptocurrencyData))
      (symbol body bodyPermuted : String),
      lib.jsonUnmarshal body
        = Except.ok { Status := status, Data := before ++ (symbol, group) :: after } →
      lib.jsonUnmarshal bodyPermuted
        = Except.ok { Status := status, Data := before ++ (symbol, permuted) :: after } →
      parseQuoteResponse lib bodyPermuted = parseQuoteResponse lib body := by
  have hsel := minIDCrypto_perm group permuted hperm hid
  have hbody : ∀ (cryptos : List Cryptocurrency) (symbol : String),
      quoteLoopBody lib cryptos (symbol, permuted) = quoteLoopBody lib cryptos (symbol, group) := by
    intro cryptos symbol
    simp only [quoteLoopBody, hsel]
  refine ⟨hsel, hbody, ?_⟩
  intro status before after symbol body bodyPermuted hdec hdecp
  simp only [parseQuoteResponse, hdec, hdecp, parseDecoded, List.foldl_append,
    List.foldl_cons, hbody]

/-- Witness of the amended C2: identifier 3 once and identifier 5 on two different
listings; the group and a rotation of it give the record of identifier 3. -/
theorem C2_selection_independent_of_order_witness :
    minIDCrypto [listing5bis, listing3, listing5] = minIDCrypto [listing3, listing5, listing5bis] ∧
    (∀ (cryptos : List Cryptocurrency) (symbol : String),
      quoteLoopBody
          (stdlibOf [("btc-three", { Data := [("BTC", [listing3, listing5, listing5bis])] }),
            ("btc-rotated", { Data := [("BTC", [listing5bis, listing3, listing5])] })])
          cryptos (symbol, [listing5bis, listing3, listing5])
        = quoteLoopBody
          (stdlibOf [("btc-three", { Data := [("BTC", [listing3, listing5, listing5bis])] }),
            ("btc-rotated", { Data := [("BTC", [listing5bis, listing3, listing5])] })])
          cryptos (symbol, [listing3, listing5, listing5bis])) ∧
    parseQuoteResponse
        (stdlibOf [("btc-three", { Data := [("BTC", [listing3, listing5, listing5bis])] }),
          ("btc-rotated", { Data := [("BTC", [listing5bis, listing3, listing5])] })])
        "btc-rotated"
      = parseQuoteResponse
        (stdlibOf [("btc-three", { Data := [("BTC", [listing3, listing5, listing5bis])] }),
          ("btc-rotated", { Data := [("BTC", [listing5bis, listing3, listing5])] })])
        "btc-three" :=
  have h := C2_selection_independent_of_order
    (stdlibOf [("btc-three", { Data := [("BTC", [listing3, listing5, listing5bis])] }),
      ("btc-rotated", { Data := [("BTC", [listing5bis, listing3, listing5])] })])
    [listing3, listing5, listing5bis] [listing5bis, listing3, listing5]
    (show List.Perm ([listing5bis] ++ [listing3, listing5]) ([listing3, listing5] ++ [listing5bis])
      from List.perm_append_comm)
    (by
      have hleast : ∀ a ∈ [listing3, listing5, listing5bis],
          (∀ x ∈ [listing3, listing5, listing5bis], a.ID ≤ x.ID) → a = listing3 := by
        intro a ha hmin
        have h3 := hmin listing3 (by simp)
        simp only [List.mem_cons, List.mem_singleton, List.not_mem_nil, or_false] at ha
        rcases ha with ha | ha | ha
        · exact ha
        · subst ha; exact absurd h3 (by decide)
        · subst ha; exact absurd h3 (by decide)
      intro a ha b hb hamin hbmin
      rw [hleast a ha hamin, hleast b hb hbmin])
  ⟨h.1, h.2.1, h.2.2 {} [] [] "BTC" "btc-three" "btc-rotated" rfl rfl⟩

/-! ## The records of a decoded response -/

/-- C3: for every decoded response with error code 0 whose data holds a single symbol
group whose selected listing has a "USD" quote, `parseQuoteResponse` returns exactly one
record and no error; the record takes ID, Name and Symbol from the selected listing and
Price, PercentChange24h, MarketCap, Volume24h and the RFC 3339 rendering of LastUpdated
from that listing's USD quote. -/
theorem C3_single_group_record (lib : Stdlib) (body : String) (apiResp : apiQuoteResponse)
    (symbol : String) (group : List apiCryptocurrencyData) (sel : apiCryptocurrencyData)
    (usd : apiQuoteData)
    (hdec : lib.jsonUnmarshal body = Except.ok apiResp)
    (hcode : apiResp.Status.ErrorCode = 0)
    (hdata : apiResp.Data = [(symbol, group)])
    (hsel : minIDCrypto group = some sel)
    (husd : sel.Quote.lookup "USD" = some usd) :
    parseQuoteResponse lib body =
      ([{ ID := sel.ID, Name := sel.Name, Symbol := sel.Symbol,
          Price := usd.Price, PercentChange24h := usd.PercentChange24h,
          MarketCap := usd.MarketCap, Volume24h := usd.Volume24h,
          LastUpdated := lib.formatRFC3339 usd.LastUpdated }], none) := by
  have hrec : groupRecord lib group = some (quoteRecord lib sel usd) := by
    simp only [groupRecord, hsel]
    rw [husd]
  simp only [parseQuoteResponse, hdec, parseDecoded_ok lib apiResp hcode, hdata,
    List.filterMap_cons, hrec, List.filterMap_nil]
  simp [quoteRecord]

/-- Witness of C3: the "BTC" group with the listings of identifiers 5 and 3, one USD quote
each, yields exactly one record, with identifier 3 and the quote values of identifier 3. -/
theorem C3_single_group_record_witness :
    (stdlibOf [("btc-body", btcResponse)]).jsonUnmarshal "btc-body" = Except.ok btcResponse ∧
    btcResponse.Status.ErrorCode = 0 ∧
    btcResponse.Data = [("BTC", [listing5, listing3])] ∧
    parseQuoteResponse (stdlibOf [("btc-body", btcResponse)]) "btc-body" = ([record3], none) :=
  ⟨rfl, rfl, rfl,
    C3_single_group_record (stdlibOf [("btc-body", btcResponse)]) "btc-body" btcResponse "BTC"
      [listing5, listing3] listing3
      (usdQuote 30 { year := 2024, month := 5, day := 7, hour := 14, minute := 30 })
      rfl rfl rfl rfl rfl⟩

/-- C4: for every decoded response with error code 0 in which at least one symbol group
qualifies, `parseQuoteResponse` succeeds; its result is the list of the records of the
groups that have one, in the order of iteration; a group has a record exactly when it is
non-empty and its selected listing has a "USD" quote, so the other groups are left out
without a failure; and the length of the result is the number of qualifying groups. -/
theorem C4_one_record_per_qualifying_group (lib : Stdlib) (body : String)
    (apiResp : apiQuoteResponse)
    (hdec : lib.jsonUnmarshal body = Except.ok apiResp)
    (hcode : apiResp.Status.ErrorCode = 0)
    (hsome : ∃ entry ∈ apiResp.Data, qualifies entry.2 = true) :
    (parseQuoteResponse lib body).2 = none ∧
    (parseQuoteResponse lib body).1
      = apiResp.Data.filterMap (fun entry => groupRecord lib entry.2) ∧
    (∀ group : List apiCryptocurrencyData,
      (groupRecord lib group).isSome = true ↔
        group ≠ [] ∧ ∃ sel usd, minIDCrypto group = some sel ∧
          sel.Quote.lookup "USD" = some usd ∧
          groupRecord lib group = some (quoteRecord lib sel usd)) ∧
    (∀ group : List apiCryptocurrencyData,
      (groupRecord lib group).isSome = qualifies group) ∧
    (parseQuoteResponse lib body).1.length
      = (apiResp.Data.filter (fun entry => qualifies entry.2)).length := by
  have hne : apiResp.Data.filterMap (fun entry => groupRecord lib entry.2) ≠ [] := by
    intro h
    obtain ⟨entry, he, hq⟩ := hsome
    have := (filterMap_groupRecord_eq_nil lib apiResp.Data).mp h entry he
    rw [hq] at this
    exact absurd this (by decide)
  have hres : parseQuoteResponse lib body
      = (apiResp.Data.filterMap (fun entry => groupRecord lib entry.2), none) := by
    simp only [parseQuoteResponse, hdec, parseDecoded_ok lib apiResp hcode, hne, if_false]
  refine ⟨by rw [hres], by rw [hres], ?_, groupRecord_isSome lib, ?_⟩
  · intro group
    constructor
    · intro h
      have hne2 : group ≠ [] := by
        intro e
        subst e
        simp [groupRecord, minIDCrypto] at h
      refine ⟨hne2, ?_⟩
      unfold groupRecord at h ⊢
      cases hs : minIDCrypto group with
      | none => simp [hs] at h
      | some sel =>
        simp only [hs] at h ⊢
        split at h
        · simp at h
        · next usd hu => exact ⟨sel, usd, rfl, hu, rfl⟩
    · rintro ⟨_, sel, usd, _, _, hr⟩
      rw [hr]
      rfl
  · rw [hres]
    exact length_filterMap_groupRecord lib apiResp.Data

/-- Witness of C4: a response with an empty group, the "BTC" group and a USD-less group
yields the one record of the "BTC" group. -/
theorem C4_one_record_per_qualifying_group_witness :
    (parseQuoteResponse (stdlibOf [("mixed", mixedResponse)]) "mixed").2 = none ∧
    (parseQuoteResponse (stdlibOf [("mixed", mixedResponse)]) "mixed").1 = [record3] ∧
    (parseQuoteResponse (stdlibOf [("mixed", mixedResponse)]) "mixed").1.length = 1 :=
  have h := C4_one_record_per_qualifying_group (stdlibOf [("mixed", mixedResponse)]) "mixed"
    mixedResponse rfl rfl ⟨("BTC", [listing5, listing3]), by simp [mixedResponse], rfl⟩
  ⟨h.1, h.2.1, h.2.2.2.2⟩

/-- C5: for every decoded response whose error code is not 0, `parseQuoteResponse` returns
no records and the error "API ошибка: " followed by the envelope's message when that
message is a string, and by "неизвестная ошибка" otherwise, whatever the data holds. -/
theorem C5_upstream_error (lib : Stdlib) (body : String) (apiResp : apiQuoteResponse)
    (hdec : lib.jsonUnmarshal body = Except.ok apiResp)
    (hcode : apiResp.Status.ErrorCode ≠ 0) :
    (∀ msg : String, apiResp.Status.ErrorMessage = AnyJSON.string msg →
      parseQuoteResponse lib body = ([], some ("API ошибка: " ++ msg))) ∧
    ((∀ msg : String, apiResp.Status.ErrorMessage ≠ AnyJSON.string msg) →
      parseQuoteResponse lib body = ([], some "API ошибка: неизвестная ошибка")) := by
  constructor
  · intro msg hmsg
    simp only [parseQuoteResponse, hdec, parseDecoded, hcode, ne_eq, not_false_eq_true,
      if_true, hmsg]
  · intro hno
    simp only [parseQuoteResponse, hdec, parseDecoded, hcode, ne_eq, not_false_eq_true,
      if_true]
    cases hm : apiResp.Status.ErrorMessage with
    | string msg => exact absurd hm (hno msg)
    | null => rfl
    | bool b => rfl
    | number f => rfl
    | array xs => rfl
    | object kv => rfl

/-- Witness of C5: error code 1001 with a string message and a well-formed "BTC" group. -/
theorem C5_upstream_error_witness :
    failedResponse.Status.ErrorCode ≠ 0 ∧
    failedResponse.Data = [("BTC", [listing5, listing3])] ∧
    parseQuoteResponse (stdlibOf [("failed", failedResponse)]) "failed"
      = ([], some "API ошибка: This API Key is invalid.") ∧
    parseQuoteResponse
        (stdlibOf [("failed", { failedResponse with Status := { ErrorCode := 1001 } })]) "failed"
      = ([], some "API ошибка: неизвестная ошибка") :=
  ⟨by decide, rfl,
    (C5_upstream_error (stdlibOf [("failed", failedResponse)]) "failed" failedResponse rfl
      (by decide)).1 "This API Key is invalid." rfl,
    (C5_upstream_error
      (stdlibOf [("failed", { failedResponse with Status := { ErrorCode := 1001 } })]) "failed"
      { failedResponse with Status := { ErrorCode := 1001 } } rfl (by decide)).2
      (by intro msg h; cases h)⟩

/-- C6: for every decoded response with error code 0, `parseQuoteResponse` fails with
"криптовалюты не найдены", and no records, if and only if every symbol group of the data
is empty or has no "USD" quote on its selected listing (a data mapping without groups
included); and a result returned without an error is never the empty list. -/
theorem C6_not_found_iff_no_group_qualifies (lib : Stdlib) (body : String)
    (apiResp : apiQuoteResponse)
    (hdec : lib.jsonUnmarshal body = Except.ok apiResp)
    (hcode : apiResp.Status.ErrorCode = 0) :
    (parseQuoteResponse lib body = ([], some "криптовалюты не найдены")
      ↔ ∀ entry ∈ apiResp.Data, qualifies entry.2 = false) ∧
    ((parseQuoteResponse lib body).2 = some "криптовалюты не найдены"
      ↔ ∀ entry ∈ apiResp.Data, qualifies entry.2 = false) ∧
    ((parseQuoteResponse lib body).2 = none → (parseQuoteResponse lib body).1 ≠ []) := by
  have hres : parseQuoteResponse lib body =
      if apiResp.Data.filterMap (fun entry => groupRecord lib entry.2) = []
      then ([], some "криптовалюты не найдены")
      else (apiResp.Data.filterMap (fun entry => groupRecord lib entry.2), none) := by
    simp only [parseQuoteResponse, hdec, parseDecoded_ok lib apiResp hcode]
  rw [hres, ← filterMap_groupRecord_eq_nil lib apiResp.Data]
  by_cases hnil : apiResp.Data.filterMap (fun entry => groupRecord lib entry.2) = []
  · simp [hnil]
  · simp [hnil]

/-- Witness of C6: a response whose groups are one empty group and one USD-less group. -/
theorem C6_not_found_iff_no_group_qualifies_witness :
    barrenResponse.Status.ErrorCode = 0 ∧
    (∀ entry ∈ barrenResponse.Data, qualifies entry.2 = false) ∧
    parseQuoteResponse (stdlibOf [("barren", barrenResponse)]) "barren"
      = ([], some "криптовалюты не найдены") ∧
    parseQuoteResponse (stdlibOf [("empty", {})]) "empty"
      = ([], some "криптовалюты не найдены") :=
  ⟨rfl, by simp [barrenResponse, qualifies, minIDCrypto, listingEUR, List.lookup],
    (C6_not_found_iff_no_group_qualifies (stdlibOf [("barren", barrenResponse)]) "barren"
      barrenResponse rfl rfl).1.mpr
      (by simp [barrenResponse, qualifies, minIDCrypto, listingEUR, List.lookup]),
    (C6_not_found_iff_no_group_qualifies (stdlibOf [("empty", {})]) "empty" {} rfl rfl).1.mpr
      (by intro entry he; cases he)⟩

/-! ## Lemmas on error texts and on the transport -/

/-- A non-empty text keeps its first rune when something is appended. -/
theorem firstRune_append (a rest : String) (c : Char) (h : firstRune a = some c) :
    firstRune (a ++ rest) = some c := by
  unfold firstRune at h ⊢
  rw [String.data_append]
  cases hd : a.data with
  | nil => simp [hd] at h
  | cons x xs => simpa [hd] using h

/-- Texts with different first runes are different. -/
theorem ne_of_firstRune {x y : String} {c d : Char} (hx : firstRune x = some c)
    (hy : firstRune y = some d) (hcd : c ≠ d) : x ≠ y := by
  intro e
  subst e
  rw [hx] at hy
  exact hcd (Option.some.inj hy)

/-- The result of `makeRequest` once a response has been received. -/
theorem makeRequest_of_response (lib : Stdlib) (c : CoinMarketCapClient) (url : String)
    (resp : Response) (hreq : lib.newRequestErr "GET" url = none)
    (hdo : c.httpClient (signedRequest c url) = Except.ok resp) :
    makeRequest lib c url =
      if resp.StatusCode ≠ StatusOK then
        if resp.StatusCode ≥ 400 ∧ resp.StatusCode < 500 then
          ("", some "некорректный запрос или не найден символ")
        else if resp.StatusCode ≥ 500 ∧ resp.StatusCode < 600 then
          ("", some "временная ошибка сервера, попробуйте позже")
        else
          ("", some ("API вернул статус " ++ toString resp.StatusCode ++ ": " ++ resp.Body.data))
      else
        match resp.Body.err with
        | some err => ("", some ("ошибка чтения ответа: " ++ err))
        | none => (resp.Body.data, none) := by
  simp only [makeRequest, hreq, hdo]

/-- Every result of `makeRequest` is an error with no body, or the body read with no error. -/
theorem makeRequest_dichotomy (lib : Stdlib) (c : CoinMarketCapClient) (url : String) :
    ((makeRequest lib c url).2 ≠ none ∧ (makeRequest lib c url).1 = "") ∨
    ((makeRequest lib c url).2 = none ∧
      ∃ resp, c.httpClient (signedRequest c url) = Except.ok resp ∧
        resp.StatusCode = StatusOK ∧ resp.Body.err = none ∧
        (makeRequest lib c url).1 = resp.Body.data) := by
  unfold makeRequest
  cases hreq : lib.newRequestErr "GET" url with
  | some err => simp
  | none =>
    cases hdo : c.httpClient (signedRequest c url) with
    | error err => simp
    | ok resp =>
      by_cases hs : resp.StatusCode = StatusOK
      · cases he : resp.Body.err with
        | some err => simp [hs, he]
        | none => simp [hs, he]
      · by_cases h4 : resp.StatusCode ≥ 400 ∧ resp.StatusCode < 500
        · simp [hs, h4]
        · by_cases h5 : resp.StatusCode ≥ 500 ∧ resp.StatusCode < 600
          · simp [hs, h4, h5]
          · simp [hs, h4, h5]

/-- An error of `makeRequest` starts with a rune other than the first rune of the
InvalidInput text, or is the ClientError text. -/
theorem makeRequest_error_text (lib : Stdlib) (c : CoinMarketCapClient) (url : String)
    (e : String) (h : (makeRequest lib c url).2 = some e) :
    firstRune e = some 'о' ∨ firstRune e = some 'в' ∨ firstRune e = some 'A' ∨
      e = "некорректный запрос или не найден символ" := by
  unfold makeRequest at h
  cases hreq : lib.newRequestErr "GET" url with
  | some err =>
    simp only [hreq, Option.some.injEq] at h
    subst h
    exact Or.inl (firstRune_append _ _ _ (by decide))
  | none =>
    cases hdo : c.httpClient (signedRequest c url) with
    | error err =>
      simp only [hreq, hdo, Option.some.injEq] at h
      subst h
      exact Or.inl (firstRune_append _ _ _ (by decide))
    | ok resp =>
      simp only [hreq, hdo] at h
      by_cases hs : resp.StatusCode = StatusOK
      · cases he : resp.Body.err with
        | some err =>
          simp only [hs, ne_eq, not_true_eq_false, if_false, he, Option.some.injEq] at h
          subst h
          exact Or.inl (firstRune_append _ _ _ (by decide))
        | none => simp [hs, he] at h
      · by_cases h4 : resp.StatusCode ≥ 400 ∧ resp.StatusCode < 500
        · simp only [hs, ne_eq, not_false_eq_true, if_true, h4, and_self,
            Option.some.injEq] at h
          exact Or.inr (Or.inr (Or.inr h.symm))
        · by_cases h5 : resp.StatusCode ≥ 500 ∧ resp.StatusCode < 600
          · simp only [hs, ne_eq, not_false_eq_true, if_true, h4, if_false, h5, and_self,
              Option.some.injEq] at h
            subst h
            exact Or.inr (Or.inl (by decide))
          · simp only [hs, ne_eq, not_false_eq_true, if_true, h4, if_false, h5,
              Option.some.injEq] at h
            subst h
            refine Or.inr (Or.inr (Or.inl ?_))
            rw [String.append_assoc, String.append_assoc]
            exact firstRune_append _ _ _ (by decide)

/-- An error of `parseQuoteResponse` starts with one of three runes. -/
theorem parseQuoteResponse_error_text (lib : Stdlib) (body : String) (e : String)
    (h : (parseQuoteResponse lib body).2 = some e) :
    firstRune e = some 'о' ∨ firstRune e = some 'A' ∨ firstRune e = some 'к' := by
  unfold parseQuoteResponse at h
  cases hdec : lib.jsonUnmarshal body with
  | error err =>
    simp only [hdec, Option.some.injEq] at h
    subst h
    exact Or.inl (firstRune_append _ _ _ (by decide))
  | ok apiResp =>
    simp only [hdec, parseDecoded] at h
    by_cases hcode : apiResp.Status.ErrorCode = 0
    · by_cases hlen : (List.foldl (quoteLoopBody lib) [] apiResp.Data).length = 0
      · simp only [hcode, ne_eq, not_true_eq_false, if_false, hlen, if_true,
          Option.some.injEq] at h
        subst h
        exact Or.inr (Or.inr (by decide))
      · simp [hcode, hlen] at h
    · simp only [hcode, ne_eq, not_false_eq_true, if_true, Option.some.injEq] at h
      subst h
      exact Or.inr (Or.inl (firstRune_append _ _ _ (by decide)))

/-- The tail of `GetCryptocurrencyQuotes` returns an error with no records, or records with no error. -/
theorem requestAndParse_dichotomy (lib : Stdlib) (c : CoinMarketCapClient) (url : String) :
    ((requestAndParse lib c url).2 ≠ none ∧ (requestAndParse lib c url).1 = []) ∨
    ((requestAndParse lib c url).2 = none ∧ (requestAndParse lib c url).1 ≠ []) := by
  unfold requestAndParse
  rcases hm : makeRequest lib c url with ⟨body, _ | err⟩
  · have hd := parseQuoteResponse_dichotomy lib body
    rcases hp : parseQuoteResponse lib body with ⟨cryptos, _ | err⟩
    · rw [hp] at hd
      simp only [hp]
      simpa using hd
    · simp [hp]
  · simp

/-- The tail of `GetCryptocurrencyQuotes` never fails with the InvalidInput text. -/
theorem requestAndParse_error_ne (lib : Stdlib) (c : CoinMarketCapClient) (url : String) :
    (requestAndParse lib c url).2 ≠ some "не указаны символы криптовалют" := by
  have hn : firstRune "не указаны символы криптовалют" = some 'н' := by decide
  unfold requestAndParse
  rcases hm : makeRequest lib c url with ⟨body, _ | err⟩
  · have ht := parseQuoteResponse_error_text lib body
    rcases hp : parseQuoteResponse lib body with ⟨cryptos, _ | err⟩
    · simp [hp]
    · rw [hp] at ht
      have h := ht err rfl
      simp only [hp, ne_eq, Option.some.injEq]
      rcases h with h | h | h
      · exact ne_of_firstRune h hn (by decide)
      · exact ne_of_firstRune h hn (by decide)
      · exact ne_of_firstRune h hn (by decide)
  · have h := makeRequest_error_text lib c url err (by rw [hm])
    simp only [ne_eq, Option.some.injEq]
    rcases h with h | h | h | h
    · exact ne_of_firstRune h hn (by decide)
    · exact ne_of_firstRune h hn (by decide)
    · exact ne_of_firstRune h hn (by decide)
    · rw [h]; decide

/-! ## Lemmas on the symbol list -/

/-- Upper-casing gives the empty string only from the empty string. -/
theorem ToUpper_eq_empty (lib : Stdlib) (s : String) : ToUpper lib s = "" ↔ s = "" := by
  unfold ToUpper
  constructor
  · intro h
    have hd := congrArg String.data h
    have hnil : s.data = [] := by simpa using hd
    exact String.ext hnil
  · intro h
    subst h
    rfl

/-- The cleaning loop keeps the non-empty cleaned parts, in order. -/
theorem cleanLoop_eq (lib : Stdlib) (parts acc : List String) :
    parts.foldl
      (fun cleanSymbols s =>
        let cleaned := ToUpper lib (TrimSpace s)
        if cleaned ≠ "" then cleanSymbols ++ [cleaned] else cleanSymbols) acc
      = acc ++ ((parts.map TrimSpace).filter (fun part => part ≠ "")).map (ToUpper lib) := by
  induction parts generalizing acc with
  | nil => simp
  | cons part parts ih =>
    rw [List.foldl_cons, ih]
    by_cases he : TrimSpace part = ""
    · have h0 : ToUpper lib "" = "" := rfl
      simp [he, h0]
    · have hu : ToUpper lib (TrimSpace part) ≠ "" := fun h => he ((ToUpper_eq_empty lib _).mp h)
      simp [he, hu]

/-- The slice `cleanSymbols` is the symbol list of the specification. -/
theorem cleanSymbols_eq (lib : Stdlib) (symbols : String) :
    cleanSymbols lib symbols = sanitizedSymbols lib symbols := by
  unfold cleanSymbols sanitizedSymbols
  rw [cleanLoop_eq]
  simp

/-! ## The transport and the entry point -/

/-- C7: for every response status `s` that `makeRequest` receives, whatever the body and
whatever reading it gives: `400 ≤ s < 500` makes it fail with "некорректный запрос или не
найден символ" and `500 ≤ s < 600` with "временная ошибка сервера, попробуйте позже", in
both cases with no body returned. -/
theorem C7_failure_class_by_status_range (lib : Stdlib) (c : CoinMarketCapClient)
    (url : String) (resp : Response)
    (hreq : lib.newRequestErr "GET" url = none)
    (hdo : c.httpClient (signedRequest c url) = Except.ok resp) :
    (400 ≤ resp.StatusCode ∧ resp.StatusCode < 500 →
      makeRequest lib c url = ("", some "некорректный запрос или не найден символ")) ∧
    (500 ≤ resp.StatusCode ∧ resp.StatusCode < 600 →
      makeRequest lib c url = ("", some "временная ошибка сервера, попробуйте позже")) := by
  rw [makeRequest_of_response lib c url resp hreq hdo]
  constructor
  · intro h
    have hs : resp.StatusCode ≠ StatusOK := by
      unfold StatusOK
      omega
    simp only [hs, ne_eq, not_false_eq_true, if_true, ge_iff_le, h, and_self]
  · intro h
    have hs : resp.StatusCode ≠ StatusOK := by
      unfold StatusOK
      omega
    have h4 : ¬ (resp.StatusCode ≥ 400 ∧ resp.StatusCode < 500) := by omega
    simp only [hs, ne_eq, not_false_eq_true, if_true, h4, if_false, ge_iff_le, h, and_self]

/-- Witness of C7: 404 and 429 give the ClientError, 500 and 503 the ServerError. -/
theorem C7_failure_class_by_status_range_witness :
    makeRequest (stdlibOf []) (clientAnswering 404 "not found") "u"
      = ("", some "некорректный запрос или не найден символ") ∧
    makeRequest (stdlibOf []) (clientAnswering 429 "slow down") "u"
      = ("", some "некорректный запрос или не найден символ") ∧
    makeRequest (stdlibOf []) (clientAnswering 500 "oops") "u"
      = ("", some "временная ошибка сервера, попробуйте позже") ∧
    makeRequest (stdlibOf []) (clientAnswering 503 "") "u"
      = ("", some "временная ошибка сервера, попробуйте позже") :=
  ⟨(C7_failure_class_by_status_range (stdlibOf []) (clientAnswering 404 "not found") "u"
      { StatusCode := 404, Body := { data := "not found" } } rfl rfl).1 (by decide),
   (C7_failure_class_by_status_range (stdlibOf []) (clientAnswering 429 "slow down") "u"
      { StatusCode := 429, Body := { data := "slow down" } } rfl rfl).1 (by decide),
   (C7_failure_class_by_status_range (stdlibOf []) (clientAnswering 500 "oops") "u"
      { StatusCode := 500, Body := { data := "oops" } } rfl rfl).2 (by decide),
   (C7_failure_class_by_status_range (stdlibOf []) (clientAnswering 503 "") "u"
      { StatusCode := 503, Body := { data := "" } } rfl rfl).2 (by decide)⟩

/-- C8 as stated fails: status 204 lies in [200,300) and its body is read without error,
the input "btc" has a usable symbol and `parseQuoteResponse` succeeds on the body, yet
`makeRequest` returns the UnexpectedStatus error and no body, and
`GetCryptocurrencyQuotes` returns that error instead of the parsed record. -/
theorem C8_status_204_rejected :
    (200 : Int) ≤ 204 ∧ (204 : Int) < 300 ∧
    cleanSymbols (stdlibOf [("btc-body", btcResponse)]) "btc" = ["BTC"] ∧
    makeRequest (stdlibOf [("btc-body", btcResponse)]) (clientAnswering 204 "btc-body")
        (quotesURL (clientAnswering 204 "btc-body") "BTC")
      = ("", some "API вернул статус 204: btc-body") ∧
    parseQuoteResponse (stdlibOf [("btc-body", btcResponse)]) "btc-body" = ([record3], none) ∧
    GetCryptocurrencyQuotes (stdlibOf [("btc-body", btcResponse)])
        (clientAnswering 204 "btc-body") "btc"
      = ([], some "API вернул статус 204: btc-body") := by
  refine ⟨by decide, by decide, by decide, by decide, by decide, by decide⟩

/-- C8, amended: only status 200 is a success. For every response with status 200 whose
body is read without error, `makeRequest` returns the body and no error, and for every
input with at least one usable symbol `GetCryptocurrencyQuotes` returns exactly what
`parseQuoteResponse` gives on that body; for every status other than 200 that lies
outside [400,600) `makeRequest` returns the UnexpectedStatus error carrying the status
code and the body read; and an error with the UnexpectedStatus text is returned only
when a response with such a status was received. -/
theorem C8_only_status_200_succeeds (lib : Stdlib) (c : CoinMarketCapClient) :
    (∀ (url : String) (resp : Response),
      lib.newRequestErr "GET" url = none →
      c.httpClient (signedRequest c url) = Except.ok resp →
      resp.StatusCode = 200 → resp.Body.err = none →
      makeRequest lib c url = (resp.Body.data, none)) ∧
    (∀ (symbols : String) (resp : Response),
      cleanSymbols lib symbols ≠ [] →
      lib.newRequestErr "GET" (quotesURL c (Join (cleanSymbols lib symbols) ",")) = none →
      c.httpClient (signedRequest c (quotesURL c (Join (cleanSymbols lib symbols) ",")))
        = Except.ok resp →
      resp.StatusCode = 200 → resp.Body.err = none →
      GetCryptocurrencyQuotes lib c symbols = parseQuoteResponse lib resp.Body.data) ∧
    (∀ (url : String) (resp : Response),
      lib.newRequestErr "GET" url = none →
      c.httpClient (signedRequest c url) = Except.ok resp →
      resp.StatusCode ≠ 200 → ¬ (400 ≤ resp.StatusCode ∧ resp.StatusCode < 600) →
      makeRequest lib c url
        = ("", some ("API вернул статус " ++ toString resp.StatusCode ++ ": " ++ resp.Body.data))) ∧
    (∀ (url rest : String),
      (makeRequest lib c url).2 = some ("API вернул статус " ++ rest) →
      ∃ resp, c.httpClient (signedRequest c url) = Except.ok resp ∧
        resp.StatusCode ≠ 200 ∧ ¬ (400 ≤ resp.StatusCode ∧ resp.StatusCode < 600)) := by
  have hA : ∀ rest : String, firstRune ("API вернул статус " ++ rest) = some 'A' :=
    fun rest => firstRune_append _ rest _ (by decide)
  have h1 : ∀ (url : String) (resp : Response),
      lib.newRequestErr "GET" url = none →
      c.httpClient (signedRequest c url) = Except.ok resp →
      resp.StatusCode = 200 → resp.Body.err = none →
      makeRequest lib c url = (resp.Body.data, none) := by
    intro url resp hreq hdo hs he
    rw [makeRequest_of_response lib c url resp hreq hdo]
    simp [hs, he, StatusOK]
  refine ⟨h1, ?_, ?_, ?_⟩
  · intro symbols resp hne hreq hdo hs he
    have hlen : (cleanSymbols lib symbols).length ≠ 0 := by
      simpa [List.length_eq_zero] using hne
    simp only [GetCryptocurrencyQuotes, hlen, if_false, requestAndParse,
      h1 _ resp hreq hdo hs he]
    have hd := parseQuoteResponse_dichotomy lib resp.Body.data
    rcases hp : parseQuoteResponse lib resp.Body.data with ⟨cryptos, _ | err⟩
    · rfl
    · rw [hp] at hd
      simp at hd
      simp [hd]
  · intro url resp hreq hdo hs hout
    rw [makeRequest_of_response lib c url resp hreq hdo]
    have h4 : ¬ (resp.StatusCode ≥ 400 ∧ resp.StatusCode < 500) := by omega
    have h5 : ¬ (resp.StatusCode ≥ 500 ∧ resp.StatusCode < 600) := by omega
    simp only [StatusOK, ne_eq, hs, not_false_eq_true, if_true, h4, if_false, h5]
  · intro url rest h
    cases hreq : lib.newRequestErr "GET" url with
    | some err =>
      simp only [makeRequest, hreq, Option.some.injEq] at h
      exact absurd h (ne_of_firstRune (firstRune_append _ _ 'о' (by decide)) (hA rest) (by decide))
    | none =>
      cases hdo : c.httpClient (signedRequest c url) with
      | error err =>
        simp only [makeRequest, hreq, hdo, Option.some.injEq] at h
        exact absurd h (ne_of_firstRune (firstRune_append _ _ 'о' (by decide)) (hA rest) (by decide))
      | ok resp =>
        refine ⟨resp, rfl, ?_⟩
        rw [makeRequest_of_response lib c url resp hreq hdo] at h
        by_cases hs : resp.StatusCode = StatusOK
        · cases he : resp.Body.err with
          | some err =>
            simp only [hs, ne_eq, not_true_eq_false, if_false, he, Option.some.injEq] at h
            exact absurd h
              (ne_of_firstRune (firstRune_append _ _ 'о' (by decide)) (hA rest) (by decide))
          | none => simp [hs, he] at h
        · by_cases h4 : resp.StatusCode ≥ 400 ∧ resp.StatusCode < 500
          · simp only [hs, ne_eq, not_false_eq_true, if_true, h4, and_self,
              Option.some.injEq] at h
            exact absurd h (ne_of_firstRune
              (show firstRune "некорректный запрос или не найден символ" = some 'н' from by decide)
              (hA rest) (by decide))
          · by_cases h5 : resp.StatusCode ≥ 500 ∧ resp.StatusCode < 600
            · simp only [hs, ne_eq, not_false_eq_true, if_true, h4, if_false, h5, and_self,
                Option.some.injEq] at h
              exact absurd h (ne_of_firstRune
                (show firstRune "временная ошибка сервера, попробуйте позже" = some 'в' from by decide)
                (hA rest) (by decide))
            · refine ⟨hs, ?_⟩
              omega

/-- Witness of the amended C8: status 200 hands the body to `parseQuoteResponse`, and
status 302 gives the UnexpectedStatus error with the code and the body. -/
theorem C8_only_status_200_succeeds_witness :
    makeRequest (stdlibOf [("btc-body", btcResponse)]) (clientAnswering 200 "btc-body") "u"
      = ("btc-body", none) ∧
    GetCryptocurrencyQuotes (stdlibOf [("btc-body", btcResponse)])
        (clientAnswering 200 "btc-body") "btc" = ([record3], none) ∧
    makeRequest (stdlibOf []) (clientAnswering 302 "moved") "u"
      = ("", some "API вернул статус 302: moved") :=
  ⟨(C8_only_status_200_succeeds (stdlibOf [("btc-body", btcResponse)])
      (clientAnswering 200 "btc-body")).1 "u"
      { StatusCode := 200, Body := { data := "btc-body" } } rfl rfl rfl rfl,
   (C8_only_status_200_succeeds (stdlibOf [("btc-body", btcResponse)])
      (clientAnswering 200 "btc-body")).2.1 "btc"
      { StatusCode := 200, Body := { data := "btc-body" } } (by decide) rfl rfl rfl rfl,
   (C8_only_status_200_succeeds (stdlibOf []) (clientAnswering 302 "moved")).2.2.1 "u"
      { StatusCode := 302, Body := { data := "moved" } } rfl rfl (by decide) (by decide)⟩

/-- The text before the first separator of an appended text, when the front has none. -/
theorem Cut_append_fst (a b : String) (sep : Char) (h : ∀ ch ∈ a.data, ch ≠ sep) :
    (Cut (a ++ b) sep).1 = a ++ (Cut b sep).1 := by
  apply String.ext
  simp only [Cut, String.data_append]
  rw [List.takeWhile_append_of_pos]
  intro ch hch
  simpa using h ch hch

/-- The text after the first separator of an appended text, when the front has none. -/
theorem Cut_append_snd (a b : String) (sep : Char) (h : ∀ ch ∈ a.data, ch ≠ sep) :
    (Cut (a ++ b) sep).2 = (Cut b sep).2 := by
  apply String.ext
  simp only [Cut, String.data_append]
  rw [List.dropWhile_append_of_pos]
  intro ch hch
  simpa using h ch hch

/-- What `url.Parse` makes of a text with a query: with no `?` or `#` before the query
and a query that starts with a non-empty text free of both, the query runs up to the
first `#` of what follows and the rest is the fragment. -/
theorem parsedURL_of_parts (front key param : String)
    (hfront : ∀ ch ∈ front.data, ch ≠ '?' ∧ ch ≠ '#')
    (hkey : ∀ ch ∈ key.data, ch ≠ '?' ∧ ch ≠ '#') (hne : key.data ≠ []) :
    parsedURL (front ++ "?" ++ key ++ param)
      = { beforeQuery := front, ForceQuery := false,
          RawQuery := key ++ (Cut param '#').1, fragmentText := (Cut param '#').2 } := by
  have hall : ∀ ch ∈ (front ++ "?" ++ key).data, ch ≠ '#' := by
    intro ch hch
    simp only [String.data_append, List.mem_append] at hch
    rcases hch with (hch | hch) | hch
    · exact (hfront ch hch).2
    · have : ch = '?' := by simpa using hch
      rw [this]; decide
    · exact (hkey ch hch).2
  have hhead : ∀ ch ∈ front.data, ch ≠ '?' := fun ch hch => (hfront ch hch).1
  have hu : (Cut (front ++ "?" ++ key ++ param) '#').1
      = front ++ ("?" ++ (key ++ (Cut param '#').1)) := by
    rw [Cut_append_fst _ _ _ hall]
    apply String.ext
    simp only [String.data_append, List.append_assoc]
  have hf : (Cut (front ++ "?" ++ key ++ param) '#').2 = (Cut param '#').2 :=
    Cut_append_snd _ _ _ hall
  have hq1 : (Cut (front ++ ("?" ++ (key ++ (Cut param '#').1))) '?').1 = front := by
    rw [Cut_append_fst _ _ _ hhead]
    apply String.ext
    simp [Cut, String.data_append]
  have hq2 : (Cut (front ++ ("?" ++ (key ++ (Cut param '#').1))) '?').2
      = key ++ (Cut param '#').1 := by
    rw [Cut_append_snd _ _ _ hhead]
    apply String.ext
    simp [Cut, String.data_append]
  have hforce : ¬ ((front ++ ("?" ++ (key ++ (Cut param '#').1))).data.getLast? = some '?' ∧
      (front ++ ("?" ++ (key ++ (Cut param '#').1))).data.count '?' = 1) := by
    rintro ⟨hlast, hcount⟩
    have hdata : (front ++ ("?" ++ (key ++ (Cut param '#').1))).data
        = (front.data ++ ['?']) ++ (key.data ++ (Cut param '#').1.data) := by
      simp only [String.data_append, List.append_assoc]
    rw [hdata] at hlast hcount
    have hne2 : key.data ++ (Cut param '#').1.data ≠ [] := by
      intro e
      exact hne (List.append_eq_nil.mp e).1
    rw [List.getLast?_append_of_ne_nil _ hne2] at hlast
    have hmem : '?' ∈ key.data ++ (Cut param '#').1.data := List.mem_of_getLast?_eq_some hlast
    have hpos := List.count_pos_iff.mpr hmem
    rw [List.count_append, List.count_append, List.count_singleton_self] at hcount
    omega
  unfold parsedURL
  simp only [hu, hf, hforce, if_false, hq1, hq2]

/-- What `url.Parse` makes of the URL of a quotes request: the query is `symbol=` followed
by the symbol parameter up to its first `#`, and the rest of the parameter is the fragment. -/
theorem parsedURL_quotes (base param : String)
    (hbase : ∀ ch ∈ base.data, ch ≠ '?' ∧ ch ≠ '#') :
    parsedURL (base ++ "/cryptocurrency/quotes/latest?symbol=" ++ param)
      = { beforeQuery := base ++ "/cryptocurrency/quotes/latest",
          ForceQuery := false,
          RawQuery := "symbol=" ++ (Cut param '#').1,
          fragmentText := (Cut param '#').2 } := by
  have hpath : ∀ ch ∈ ("/cryptocurrency/quotes/latest" : String).data, ch ≠ '?' ∧ ch ≠ '#' := by
    decide
  have hsym : ∀ ch ∈ ("symbol=" : String).data, ch ≠ '?' ∧ ch ≠ '#' := by decide
  have hlit : ("/cryptocurrency/quotes/latest?symbol=" : String)
      = "/cryptocurrency/quotes/latest" ++ "?" ++ "symbol=" := by decide
  have hsplit : base ++ "/cryptocurrency/quotes/latest?symbol=" ++ param
      = (base ++ "/cryptocurrency/quotes/latest") ++ "?" ++ "symbol=" ++ param := by
    rw [hlit]
    apply String.ext
    simp only [String.data_append, List.append_assoc]
  have hfront : ∀ ch ∈ (base ++ "/cryptocurrency/quotes/latest").data, ch ≠ '?' ∧ ch ≠ '#' := by
    intro ch hch
    rw [String.data_append] at hch
    rcases List.mem_append.mp hch with hch | hch
    · exact hbase ch hch
    · exact hpath ch hch
  rw [hsplit]
  exact parsedURL_of_parts _ "symbol=" param hfront hsym (by decide)

/-- A text without the separator is cut into itself and the empty text. -/
theorem Cut_of_not_mem (s : String) (sep : Char) (h : sep ∉ s.data) : Cut s sep = (s, "") := by
  have hall : ∀ ch ∈ s.data, (ch != sep) = true := by
    intro ch hch
    have : ch ≠ sep := fun e => h (e ▸ hch)
    simpa using this
  have h1 : s.data.takeWhile (fun ch => ch != sep) = s.data :=
    List.takeWhile_eq_self_iff.mpr hall
  have h2 : s.data.dropWhile (fun ch => ch != sep) = [] :=
    List.dropWhile_eq_nil_iff.mpr hall
  unfold Cut
  rw [h1, h2]
  rfl

/-- The headers of the request are the two that `makeRequest` sets, under canonical keys. -/
theorem signedRequest_eq (c : CoinMarketCapClient) (url : String) :
    signedRequest c url
      = { Method := "GET", URL := parsedURL url,
          Header := [("Accept", "application/json"), ("X-Cmc_pro_api_key", c.apiKey)] } := by
  have h1 : CanonicalMIMEHeaderKey "X-CMC_PRO_API_KEY" = "X-Cmc_pro_api_key" := by decide
  have h2 : CanonicalMIMEHeaderKey "Accept" = "Accept" := by decide
  have h3 : (("X-Cmc_pro_api_key" : String) != "Accept") = true := by decide
  simp only [signedRequest, Request.headerSet, h1, h2, List.filter_nil, List.filter_cons, h3,
    if_true]

/-- C9 as stated fails at the input "btc#x,eth": the symbol list is "BTC#X", "ETH" and its
comma-join is "BTC#X,ETH", but the request handed to the transport has the raw query
"symbol=BTC" and the fragment "X,ETH", so the request target carries "?symbol=BTC" and
not the join; a transport that serves the "BTC" body to the query "symbol=BTC" only, and
fails otherwise, makes the call succeed. -/
theorem C9_fragment_cut_from_parameter :
    cleanSymbols (stdlibOf [("btc-body", btcResponse)]) "btc#x,eth" = ["BTC#X", "ETH"] ∧
    Join (sanitizedSymbols (stdlibOf [("btc-body", btcResponse)]) "btc#x,eth") ","
      = "BTC#X,ETH" ∧
    signedRequest (clientServing "symbol=BTC" "btc-body")
        (quotesURL (clientServing "symbol=BTC" "btc-body") "BTC#X,ETH")
      = { Method := "GET",
          URL := { beforeQuery := "https://pro-api.coinmarketcap.com/v2/cryptocurrency/quotes/latest",
                   ForceQuery := false, RawQuery := "symbol=BTC", fragmentText := "X,ETH" },
          Header := [("Accept", "application/json"), ("X-Cmc_pro_api_key", "key")] } ∧
    (signedRequest (clientServing "symbol=BTC" "btc-body")
        (quotesURL (clientServing "symbol=BTC" "btc-body") "BTC#X,ETH")).URL.requestQuery
      = "?symbol=BTC" ∧
    (signedRequest (clientServing "symbol=BTC" "btc-body")
        (quotesURL (clientServing "symbol=BTC" "btc-body") "BTC#X,ETH")).URL.requestQuery
      ≠ "?symbol=BTC#X,ETH" ∧
    GetCryptocurrencyQuotes (stdlibOf [("btc-body", btcResponse)])
        (clientServing "symbol=BTC" "btc-body") "btc#x,eth" = ([record3], none) ∧
    GetCryptocurrencyQuotes (stdlibOf [("btc-body", btcResponse)])
        (clientServing "symbol=BTC#X,ETH" "btc-body") "btc#x,eth"
      = ([], some "временная ошибка сервера, попробуйте позже") := by
  refine ⟨by decide, by decide, by decide, by decide, by decide, by decide, by decide⟩

/-- C9, amended: for every input string, the slice of symbols `GetCryptocurrencyQuotes`
builds is the list of the comma-separated parts, each trimmed of surrounding white space,
the parts empty after trimming discarded, the rest upper-cased, order and duplicates kept;
the call fails with "не указаны символы криптовалют" if and only if that list is empty;
otherwise it is `makeRequest` followed by `parseQuoteResponse` on the URL text that ends
in `?symbol=` followed by the comma-join of the list. The join is not escaped: for a base
URL without `?` and `#` (the constant `baseURL` is one) the request handed to the
transport is a GET with the two headers whose raw query is `symbol=` followed by the join
up to its first `#`, the rest of the join being the fragment, which is no part of the
request target; so the query carries the whole join when the join has no `#`. The
transport is asked for that request and no other: its failure there is the failure of the
call, and a client that answers that request alike gives the same result. The input
"btc, eth ,bnb" gives the join "BTC,ETH,BNB" and the raw query "symbol=BTC,ETH,BNB". -/
theorem C9_symbol_parameter (lib : Stdlib) (c : CoinMarketCapClient) (symbols : String) :
    cleanSymbols lib symbols = sanitizedSymbols lib symbols ∧
    (GetCryptocurrencyQuotes lib c symbols = ([], some "не указаны символы криптовалют")
      ↔ sanitizedSymbols lib symbols = []) ∧
    ((GetCryptocurrencyQuotes lib c symbols).2 = some "не указаны символы криптовалют"
      ↔ sanitizedSymbols lib symbols = []) ∧
    (sanitizedSymbols lib symbols ≠ [] →
      GetCryptocurrencyQuotes lib c symbols
        = requestAndParse lib c
            (c.baseURL ++ "/cryptocurrency/quotes/latest?symbol="
              ++ Join (sanitizedSymbols lib symbols) ",")) ∧
    ((∀ ch ∈ c.baseURL.data, ch ≠ '?' ∧ ch ≠ '#') →
      signedRequest c (c.baseURL ++ "/cryptocurrency/quotes/latest?symbol="
          ++ Join (sanitizedSymbols lib symbols) ",")
        = { Method := "GET",
            URL := { beforeQuery := c.baseURL ++ "/cryptocurrency/quotes/latest",
                     ForceQuery := false,
                     RawQuery := "symbol=" ++ (Cut (Join (sanitizedSymbols lib symbols) ",") '#').1,
                     fragmentText := (Cut (Join (sanitizedSymbols lib symbols) ",") '#').2 },
            Header := [("Accept", "application/json"), ("X-Cmc_pro_api_key", c.apiKey)] }) ∧
    ((∀ ch ∈ c.baseURL.data, ch ≠ '?' ∧ ch ≠ '#') →
      '#' ∉ (Join (sanitizedSymbols lib symbols) ",").data →
      (signedRequest c (c.baseURL ++ "/cryptocurrency/quotes/latest?symbol="
          ++ Join (sanitizedSymbols lib symbols) ",")).URL.RawQuery
        = "symbol=" ++ Join (sanitizedSymbols lib symbols) "," ∧
      (signedRequest c (c.baseURL ++ "/cryptocurrency/quotes/latest?symbol="
          ++ Join (sanitizedSymbols lib symbols) ",")).URL.fragmentText = "") ∧
    (sanitizedSymbols lib symbols ≠ [] →
      lib.newRequestErr "GET" (c.baseURL ++ "/cryptocurrency/quotes/latest?symbol="
          ++ Join (sanitizedSymbols lib symbols) ",") = none →
      ∀ err : String,
        c.httpClient (signedRequest c (c.baseURL ++ "/cryptocurrency/quotes/latest?symbol="
          ++ Join (sanitizedSymbols lib symbols) ",")) = Except.error err →
        GetCryptocurrencyQuotes lib c symbols
          = ([], some ("ошибка выполнения запроса: " ++ err))) ∧
    (∀ other : CoinMarketCapClient,
      other.apiKey = c.apiKey → other.baseURL = c.baseURL →
      other.httpClient (signedRequest c (c.baseURL ++ "/cryptocurrency/quotes/latest?symbol="
          ++ Join (sanitizedSymbols lib symbols) ","))
        = c.httpClient (signedRequest c (c.baseURL ++ "/cryptocurrency/quotes/latest?symbol="
          ++ Join (sanitizedSymbols lib symbols) ",")) →
      GetCryptocurrencyQuotes lib other symbols = GetCryptocurrencyQuotes lib c symbols) ∧
    Join (sanitizedSymbols lib "btc, eth ,bnb") "," = "BTC,ETH,BNB" ∧
    ((∀ ch ∈ c.baseURL.data, ch ≠ '?' ∧ ch ≠ '#') →
      (signedRequest c (c.baseURL ++ "/cryptocurrency/quotes/latest?symbol="
          ++ Join (sanitizedSymbols lib "btc, eth ,bnb") ",")).URL.RawQuery
        = "symbol=BTC,ETH,BNB") ∧
    (∀ ch ∈ baseURL.data, ch ≠ '?' ∧ ch ≠ '#') := by
  have hclean := cleanSymbols_eq lib symbols
  have hget : ∀ k : CoinMarketCapClient, GetCryptocurrencyQuotes lib k symbols =
      if sanitizedSymbols lib symbols = [] then ([], some "не указаны символы криптовалют")
      else requestAndParse lib k
        (k.baseURL ++ "/cryptocurrency/quotes/latest?symbol="
          ++ Join (sanitizedSymbols lib symbols) ",") := by
    intro k
    simp only [GetCryptocurrencyQuotes, hclean, quotesURL, List.length_eq_zero]
  have hjoin : Join (sanitizedSymbols lib "btc, eth ,bnb") "," = "BTC,ETH,BNB" := rfl
  refine ⟨hclean, ?_, ?_, ?_, ?_, ?_, ?_, ?_, hjoin, ?_, by decide⟩
  · rw [hget]
    by_cases hnil : sanitizedSymbols lib symbols = []
    · simp only [hnil, if_true]
    · simp only [hnil, if_false, iff_false]
      intro h
      exact requestAndParse_error_ne lib c _ (by rw [h])
  · rw [hget]
    by_cases hnil : sanitizedSymbols lib symbols = []
    · simp only [hnil, if_true]
    · simp only [hnil, if_false, iff_false]
      exact requestAndParse_error_ne lib c _
  · intro hne
    rw [hget, if_neg hne]
  · intro hbase
    rw [signedRequest_eq, parsedURL_quotes _ _ hbase]
  · intro hbase hno
    rw [signedRequest_eq, parsedURL_quotes _ _ hbase, Cut_of_not_mem _ _ hno]
    exact ⟨rfl, rfl⟩
  · intro hne hreq err hdo
    rw [hget, if_neg hne]
    simp only [requestAndParse, makeRequest, hreq, hdo]
  · intro other hkey hbase hdo
    rw [hget, hget, hbase]
    by_cases hnil : sanitizedSymbols lib symbols = []
    · simp only [hnil, if_true]
    · simp only [hnil, if_false]
      have hreq : signedRequest other (c.baseURL ++ "/cryptocurrency/quotes/latest?symbol="
          ++ Join (sanitizedSymbols lib symbols) ",")
          = signedRequest c (c.baseURL ++ "/cryptocurrency/quotes/latest?symbol="
          ++ Join (sanitizedSymbols lib symbols) ",") := by
        simp only [signedRequest, hkey]
      simp only [requestAndParse, makeRequest, hreq, hdo]
  · intro hbase
    rw [signedRequest_eq, parsedURL_quotes _ _ hbase, hjoin]
    show "symbol=" ++ (Cut "BTC,ETH,BNB" '#').1 = "symbol=BTC,ETH,BNB"
    decide

/-- Witness of the amended C9: "btc, eth ,bnb" gives the join "BTC,ETH,BNB" and a request
whose raw query is "symbol=BTC,ETH,BNB"; an input made of commas and blanks fails with
the InvalidInput text; a transport error on that request is the error of the call. -/
theorem C9_symbol_parameter_witness :
    cleanSymbols (stdlibOf []) "btc, eth ,bnb" = ["BTC", "ETH", "BNB"] ∧
    Join (sanitizedSymbols (stdlibOf []) "btc, eth ,bnb") "," = "BTC,ETH,BNB" ∧
    (signedRequest (clientAnswering 200 "")
        ((clientAnswering 200 "").baseURL ++ "/cryptocurrency/quotes/latest?symbol="
          ++ Join (sanitizedSymbols (stdlibOf []) "btc, eth ,bnb") ",")).URL.RawQuery
      = "symbol=BTC,ETH,BNB" ∧
    GetCryptocurrencyQuotes (stdlibOf []) (clientAnswering 200 "") " , ,"
      = ([], some "не указаны символы криптовалют") ∧
    GetCryptocurrencyQuotes (stdlibOf [("btc-body", btcResponse)])
        (clientServing "symbol=BTC,ETH,BNB" "btc-body") "btc, eth ,bnb"
      = requestAndParse (stdlibOf [("btc-body", btcResponse)])
          (clientServing "symbol=BTC,ETH,BNB" "btc-body")
          "https://pro-api.coinmarketcap.com/v2/cryptocurrency/quotes/latest?symbol=BTC,ETH,BNB" ∧
    GetCryptocurrencyQuotes (stdlibOf [])
        (NewCoinMarketCapClient (fun _ => Except.error "timeout") "key") "btc"
      = ([], some "ошибка выполнения запроса: timeout") :=
  ⟨(C9_symbol_parameter (stdlibOf []) (clientAnswering 200 "") "btc, eth ,bnb").1.trans
      (by decide),
   (C9_symbol_parameter (stdlibOf []) (clientAnswering 200 "") "btc, eth ,bnb").2.2.2.2.2.2.2.2.1,
   (C9_symbol_parameter (stdlibOf []) (clientAnswering 200 "") "btc, eth ,bnb").2.2.2.2.2.2.2.2.2.1
      (by decide),
   (C9_symbol_parameter (stdlibOf []) (clientAnswering 200 "") " , ,").2.1.mpr (by decide),
   (C9_symbol_parameter (stdlibOf [("btc-body", btcResponse)])
      (clientServing "symbol=BTC,ETH,BNB" "btc-body") "btc, eth ,bnb").2.2.2.1 (by decide),
   (C9_symbol_parameter (stdlibOf [])
      (NewCoinMarketCapClient (fun _ => Except.error "timeout") "key") "btc").2.2.2.2.2.2.1
      (by decide) rfl "timeout" rfl⟩

/-- C10: no partial result is returned next to an error. For every library behaviour,
client and input, `makeRequest` returns an error with no body or the body read with no
error, and `parseQuoteResponse` and `GetCryptocurrencyQuotes` each return an error with
the nil record list or a non-empty record list with no error. -/
theorem C10_no_partial_results (lib : Stdlib) (c : CoinMarketCapClient) :
    (∀ url : String,
      ((makeRequest lib c url).2 ≠ none ∧ (makeRequest lib c url).1 = "") ∨
      ((makeRequest lib c url).2 = none ∧
        ∃ resp, c.httpClient (signedRequest c url) = Except.ok resp ∧
          resp.StatusCode = StatusOK ∧ resp.Body.err = none ∧
          (makeRequest lib c url).1 = resp.Body.data)) ∧
    (∀ body : String,
      ((parseQuoteResponse lib body).2 ≠ none ∧ (parseQuoteResponse lib body).1 = []) ∨
      ((parseQuoteResponse lib body).2 = none ∧ (parseQuoteResponse lib body).1 ≠ [])) ∧
    (∀ symbols : String,
      ((GetCryptocurrencyQuotes lib c symbols).2 ≠ none ∧
        (GetCryptocurrencyQuotes lib c symbols).1 = []) ∨
      ((GetCryptocurrencyQuotes lib c symbols).2 = none ∧
        (GetCryptocurrencyQuotes lib c symbols).1 ≠ [])) := by
  refine ⟨makeRequest_dichotomy lib c, ?_, ?_⟩
  · intro body
    rcases parseQuoteResponse_dichotomy lib body with ⟨h1, h2⟩ | h
    · left
      refine ⟨?_, h2⟩
      intro hn
      rw [hn] at h1
      exact absurd h1 (by decide)
    · exact Or.inr h
  · intro symbols
    unfold GetCryptocurrencyQuotes
    by_cases hlen : (cleanSymbols lib symbols).length = 0
    · simp [hlen]
    · simp only [hlen, if_false]
      exact requestAndParse_dichotomy lib c _

end CryptoNotifications
